import Mathlib

/-!
Shallow embedding of the NFTAuction contract (src/contracts/MyNFT.sol,
second contract in the file) and proofs about the auction escrow state
machine: bidding, the pending-returns refund ledger, settlement,
cancellation and the service fee.

Addresses, wei amounts and timestamps are modelled as Nat; the zero
address is the Nat 0.  Solidity mappings holding the per-auction,
per-bidder pending returns are modelled as an association list so that
the sum of all entries of one auction is expressible.  External value
and NFT transfers are modelled as always succeeding (the spec's Ledger
Substrate abstraction): a failing external transfer aborts the whole
operation on chain, so a successful operation in the model corresponds
exactly to a successful transaction.
-/

namespace NFTAuctionModel

/-- Key of the pending-returns ledger: (auction id, bidder address). -/
abbrev Key := Nat × Nat

/-- The pendingReturns double mapping, as an association list from
(auction id, bidder) to the withdrawable amount. -/
abbrev PRMap := List (Key × Nat)

/-- Lookup in the pending-returns ledger; absent keys read as 0, like a
Solidity mapping. -/
def prGet : PRMap → Key → Nat
  | [], _ => 0
  | e :: tl, k => if e.1 = k then e.2 else prGet tl k

/-- Remove every entry with the given key. -/
def prDel : PRMap → Key → PRMap
  | [], _ => []
  | e :: tl, k => if e.1 = k then prDel tl k else e :: prDel tl k

/-- Write a value for a key (removing any previous entry for it). -/
def prSet (pr : PRMap) (k : Key) (v : Nat) : PRMap :=
  (k, v) :: prDel pr k

/-- Sum of all pending-returns entries belonging to one auction. -/
def prSum : PRMap → Nat → Nat
  | [], _ => 0
  | e :: tl, a => (if e.1.1 = a then e.2 else 0) + prSum tl a

/-- The keys present in the ledger. -/
def prKeys (pr : PRMap) : List Key := pr.map Prod.fst

@[simp]
theorem prGet_nil (k : Key) : prGet [] k = 0 := rfl

@[simp]
theorem prGet_prSet_self (pr : PRMap) (k : Key) (v : Nat) :
    prGet (prSet pr k v) k = v := by
  simp [prSet, prGet]

theorem prGet_prDel_ne (pr : PRMap) (k k' : Key) (h : k' ≠ k) :
    prGet (prDel pr k) k' = prGet pr k' := by
  induction pr with
  | nil => rfl
  | cons e tl ih =>
    simp only [prDel, prGet]
    by_cases he : e.1 = k
    · rw [if_pos he, ih, if_neg (by rw [he]; exact fun hh => h hh.symm)]
    · rw [if_neg he]
      simp only [prGet]
      by_cases he' : e.1 = k'
      · rw [if_pos he', if_pos he']
      · rw [if_neg he', if_neg he', ih]

theorem prGet_prSet_ne (pr : PRMap) (k : Key) (v : Nat) (k' : Key) (h : k' ≠ k) :
    prGet (prSet pr k v) k' = prGet pr k' := by
  simp only [prSet, prGet]
  rw [if_neg (fun hh => h hh.symm), prGet_prDel_ne pr k k' h]

theorem mem_prKeys_of_mem_prDel {pr : PRMap} {k k' : Key}
    (h : k' ∈ prKeys (prDel pr k)) : k' ∈ prKeys pr := by
  induction pr with
  | nil => simp [prDel, prKeys] at h
  | cons e tl ih =>
    simp only [prDel] at h
    by_cases he : e.1 = k
    · rw [if_pos he] at h
      exact List.mem_cons_of_mem _ (ih h)
    · rw [if_neg he] at h
      simp only [prKeys, List.map_cons, List.mem_cons] at h ⊢
      rcases h with h | h
      · exact Or.inl h
      · exact Or.inr (ih h)

theorem not_mem_prKeys_prDel (pr : PRMap) (k : Key) :
    k ∉ prKeys (prDel pr k) := by
  induction pr with
  | nil => simp [prDel, prKeys]
  | cons e tl ih =>
    simp only [prDel]
    by_cases he : e.1 = k
    · rw [if_pos he]; exact ih
    · rw [if_neg he]
      simp only [prKeys, List.map_cons, List.mem_cons]
      rintro (h | h)
      · exact he h.symm
      · exact ih h

theorem nodup_prKeys_prDel {pr : PRMap} (k : Key)
    (h : (prKeys pr).Nodup) : (prKeys (prDel pr k)).Nodup := by
  induction pr with
  | nil => simp [prDel, prKeys]
  | cons e tl ih =>
    simp only [prKeys, List.map_cons, List.nodup_cons] at h
    simp only [prDel]
    by_cases he : e.1 = k
    · rw [if_pos he]; exact ih h.2
    · rw [if_neg he]
      simp only [prKeys, List.map_cons, List.nodup_cons]
      exact ⟨fun hm => h.1 (mem_prKeys_of_mem_prDel hm), ih h.2⟩

theorem nodup_prKeys_prSet {pr : PRMap} (k : Key) (v : Nat)
    (h : (prKeys pr).Nodup) : (prKeys (prSet pr k v)).Nodup := by
  simp only [prSet, prKeys, List.map_cons, List.nodup_cons]
  exact ⟨not_mem_prKeys_prDel pr k, nodup_prKeys_prDel k h⟩

theorem prDel_of_not_mem {pr : PRMap} {k : Key} (h : k ∉ prKeys pr) :
    prDel pr k = pr := by
  induction pr with
  | nil => rfl
  | cons e tl ih =>
    simp only [prKeys, List.map_cons, List.mem_cons] at h
    push_neg at h
    simp only [prDel]
    rw [if_neg (fun hh => h.1 hh.symm), ih h.2]

theorem prSum_prDel_add_prGet {pr : PRMap} (h : (prKeys pr).Nodup)
    (a b : Nat) :
    prSum (prDel pr (a, b)) a + prGet pr (a, b) = prSum pr a := by
  induction pr with
  | nil => rfl
  | cons e tl ih =>
    simp only [prKeys, List.map_cons, List.nodup_cons] at h
    simp only [prDel, prGet, prSum]
    by_cases he : e.1 = (a, b)
    · rw [if_pos he, if_pos he, prDel_of_not_mem (he ▸ h.1)]
      rw [if_pos (by rw [he])]
      omega
    · rw [if_neg he, if_neg he]
      simp only [prSum]
      have := ih h.2
      omega

theorem prSum_prSet_add_prGet {pr : PRMap} (h : (prKeys pr).Nodup)
    (a b v : Nat) :
    prSum (prSet pr (a, b) v) a + prGet pr (a, b) = prSum pr a + v := by
  have h2 := prSum_prDel_add_prGet h a b
  simp only [prSet, prSum, if_pos trivial]
  omega

theorem prSum_prDel_ne (pr : PRMap) (k : Key) (a : Nat) (h : k.1 ≠ a) :
    prSum (prDel pr k) a = prSum pr a := by
  induction pr with
  | nil => rfl
  | cons e tl ih =>
    simp only [prDel, prSum]
    by_cases he : e.1 = k
    · rw [if_pos he, ih, if_neg (by rw [he]; exact h)]
      omega
    · rw [if_neg he]
      simp only [prSum, ih]

theorem prSum_prSet_ne (pr : PRMap) (k : Key) (v : Nat) (a : Nat)
    (h : k.1 ≠ a) :
    prSum (prSet pr k v) a = prSum pr a := by
  simp only [prSet, prSum]
  rw [if_neg h, prSum_prDel_ne pr k a h]
  omega

theorem prGet_le_prSum {pr : PRMap} (h : (prKeys pr).Nodup) (a b : Nat) :
    prGet pr (a, b) ≤ prSum pr a := by
  have := prSum_prDel_add_prGet h a b
  omega

/-- One auction record, mirroring the Auction struct of the source. -/
structure Auction where
  seller : Nat
  nftAddress : Nat
  tokenId : Nat
  startingBid : Nat
  highestBid : Nat
  highestBidder : Nat
  endTime : Nat
  ended : Bool
deriving DecidableEq

/-- The default record a Solidity mapping returns for an id that was
never written: every field zero. -/
def dAuction : Auction :=
  { seller := 0, nftAddress := 0, tokenId := 0, startingBid := 0,
    highestBid := 0, highestBidder := 0, endTime := 0, ended := false }

/-- Full state of the NFTAuction contract together with the slice of its
environment the operations read and write.  The fields pendingReturns,
auctions, auctionCounter, serviceFeePercentage, owner and balance are
the contract's own storage and ether balance.  The field engine is the
contract's own address, nftOwner is the ERC721 registry's ownership map
(keyed by NFT contract address and token id) and engineApproved records
whether this contract is approved to move a given token.  The fields
deposited, paidSeller, feeAccrued and refunded are history totals per
auction id: value ever deposited by bids, value paid to the seller at
settlement, service fee retained at settlement for the fee sink, and
value refunded to outbid bidders through withdraw. -/
structure St where
  pendingReturns : PRMap
  auctions : Nat → Auction
  auctionCounter : Nat
  serviceFeePercentage : Nat
  owner : Nat
  balance : Nat
  engine : Nat
  nftOwner : Nat → Nat → Nat
  engineApproved : Nat → Nat → Bool
  deposited : Nat → Nat
  paidSeller : Nat → Nat
  feeAccrued : Nat → Nat
  refunded : Nat → Nat

/-- The contract constant MAX_FEE_PERCENTAGE (100% with one decimal of
precision over the denominator 1000). -/
def MAX_FEE_PERCENTAGE : Nat := 1000

/-- The service fee computed at settlement in endAuction:
highestBid * serviceFeePercentage / 1000 with Nat (floor) division,
exactly as the source's unsigned integer division. -/
def serviceFeeOf (highestBid pct : Nat) : Nat :=
  highestBid * pct / 1000

/-- The function createAuction.  Requires a positive starting bid and
duration, that the caller owns the token and that the contract is
approved to move it; the call into the token contract also requires the
token contract to exist (a call into empty code reverts), modelled as
nftAddress being nonzero.  Takes custody of the token, increments the
counter and writes the new record. -/
def createAuction (s : St) (caller now nftAddress tokenId startingBid
    durationSeconds : Nat) : Option (St × Nat) :=
  if 0 < startingBid ∧ 0 < durationSeconds ∧ nftAddress ≠ 0 ∧
     s.nftOwner nftAddress tokenId = caller ∧
     s.engineApproved nftAddress tokenId = true then
    let auctionId := s.auctionCounter + 1
    some ({ s with
      auctionCounter := auctionId,
      nftOwner := fun a t =>
        if a = nftAddress ∧ t = tokenId then s.engine else s.nftOwner a t,
      auctions := fun i =>
        if i = auctionId then
          { seller := caller, nftAddress := nftAddress, tokenId := tokenId,
            startingBid := startingBid, highestBid := 0, highestBidder := 0,
            endTime := now + durationSeconds, ended := false }
        else s.auctions i }, auctionId)
  else none

/-- The bid amount rule of the source: at least the starting bid for a
first bid, otherwise at least the current highest bid plus a minimum
increment of highestBid * 5 / 100 (Nat division, i.e. floor). -/
def minBidOk (a : Auction) (amount : Nat) : Prop :=
  if a.highestBid = 0 then a.startingBid ≤ amount
  else a.highestBid + a.highestBid * 5 / 100 ≤ amount

instance (a : Auction) (amount : Nat) : Decidable (minBidOk a amount) := by
  unfold minBidOk
  infer_instance

/-- The function bid.  The guard mirrors the four requires of the
source in order: not ended, not expired, caller is not the seller, and
the amount rule.  On success the previous highest bidder, if any, is
credited in pendingReturns, the record is updated and the deadline
extended by 300 seconds when fewer than 300 seconds remain
(anti-sniping). -/
def bid (s : St) (caller now auctionId amount : Nat) : Option St :=
  let a := s.auctions auctionId
  if a.ended = false ∧ now < a.endTime ∧ a.seller ≠ caller ∧
     minBidOk a amount then
    let pr :=
      if a.highestBidder ≠ 0 then
        prSet s.pendingReturns (auctionId, a.highestBidder)
          (prGet s.pendingReturns (auctionId, a.highestBidder) + a.highestBid)
      else s.pendingReturns
    let endTime := if a.endTime - now < 300 then a.endTime + 300 else a.endTime
    some { s with
      pendingReturns := pr,
      auctions := fun i =>
        if i = auctionId then
          { a with highestBid := amount, highestBidder := caller,
                   endTime := endTime }
        else s.auctions i,
      balance := s.balance + amount,
      deposited := fun i =>
        if i = auctionId then s.deposited i + amount else s.deposited i }
  else none

/-- First half of the function withdraw, up to and including zeroing the
caller's ledger entry: the state visible to any reentrant call made by
the external payment that follows. -/
def withdrawCommit (s : St) (caller auctionId : Nat) : Option (St × Nat) :=
  let amount := prGet s.pendingReturns (auctionId, caller)
  if 0 < amount then
    some ({ s with pendingReturns := prSet s.pendingReturns (auctionId, caller) 0 },
          amount)
  else none

/-- The function withdraw: zero the entry, then pay the amount out. -/
def withdraw (s : St) (caller auctionId : Nat) : Option (St × Nat) :=
  (withdrawCommit s caller auctionId).map fun r =>
    ({ r.1 with
        balance := r.1.balance - r.2,
        refunded := fun i =>
          if i = auctionId then r.1.refunded i + r.2 else r.1.refunded i },
     r.2)

/-- The function endAuction.  The guard mirrors the three requires of
the source (not ended; past the deadline or called by the contract
owner; called by the seller or the contract owner) plus the existence
of the token contract (the transferFrom into empty code reverts).  With
a highest bidder: NFT to the winner, highest bid minus the service fee
to the seller, fee retained.  Without: NFT back to the seller. -/
def endAuction (s : St) (caller now auctionId : Nat) : Option St :=
  let a := s.auctions auctionId
  if a.ended = false ∧ (a.endTime ≤ now ∨ caller = s.owner) ∧
     (caller = a.seller ∨ caller = s.owner) ∧ a.nftAddress ≠ 0 then
    let auctions := fun i =>
      if i = auctionId then { a with ended := true } else s.auctions i
    if a.highestBidder ≠ 0 then
      let serviceFee := serviceFeeOf a.highestBid s.serviceFeePercentage
      let sellerAmount := a.highestBid - serviceFee
      some { s with
        auctions := auctions,
        nftOwner := fun na t =>
          if na = a.nftAddress ∧ t = a.tokenId then a.highestBidder
          else s.nftOwner na t,
        balance := s.balance - sellerAmount,
        paidSeller := fun i =>
          if i = auctionId then s.paidSeller i + sellerAmount
          else s.paidSeller i,
        feeAccrued := fun i =>
          if i = auctionId then s.feeAccrued i + serviceFee
          else s.feeAccrued i }
    else
      some { s with
        auctions := auctions,
        nftOwner := fun na t =>
          if na = a.nftAddress ∧ t = a.tokenId then a.seller
          else s.nftOwner na t }
  else none

/-- The function cancelAuction: only before settlement, only by the
seller or the contract owner, and only while no bid was ever placed;
returns the NFT to the seller and marks the auction ended. -/
def cancelAuction (s : St) (caller auctionId : Nat) : Option St :=
  let a := s.auctions auctionId
  if a.ended = false ∧ (caller = a.seller ∨ caller = s.owner) ∧
     a.highestBidder = 0 ∧ a.nftAddress ≠ 0 then
    some { s with
      auctions := fun i =>
        if i = auctionId then { a with ended := true } else s.auctions i,
      nftOwner := fun na t =>
        if na = a.nftAddress ∧ t = a.tokenId then a.seller
        else s.nftOwner na t }
  else none

/-- The view function auctionExists of the source: a record was written
for this id, witnessed by a nonzero seller. -/
def auctionExists (s : St) (auctionId : Nat) : Prop :=
  (s.auctions auctionId).seller ≠ 0

instance (s : St) (auctionId : Nat) : Decidable (auctionExists s auctionId) := by
  unfold auctionExists
  infer_instance

/-- The function updateServiceFeePercentage: owner only, and the new
fee may not exceed MAX_FEE_PERCENTAGE. -/
def updateServiceFeePercentage (s : St) (caller newFeePercentage : Nat) :
    Option St :=
  if caller = s.owner ∧ newFeePercentage ≤ MAX_FEE_PERCENTAGE then
    some { s with serviceFeePercentage := newFeePercentage }
  else none

/-- The function withdrawServiceFees: owner only, requires a positive
contract balance, and transfers the entire balance to the owner. -/
def withdrawServiceFees (s : St) (caller : Nat) : Option (St × Nat) :=
  if caller = s.owner ∧ 0 < s.balance then
    some ({ s with balance := 0 }, s.balance)
  else none

/-- One externally invokable operation of the engine, with its caller,
the block timestamp it runs at, and its arguments. -/
inductive Op where
  | createA (caller now nftAddress tokenId startingBid durationSeconds : Nat)
  | bidA (caller now auctionId amount : Nat)
  | withdrawA (caller auctionId : Nat)
  | endA (caller now auctionId : Nat)
  | cancelA (caller auctionId : Nat)
  | updateFeeA (caller newFeePercentage : Nat)
  | withdrawFeesA (caller : Nat)

/-- The caller (msg.sender) of an operation. -/
def Op.caller : Op → Nat
  | .createA c _ _ _ _ _ => c
  | .bidA c _ _ _ => c
  | .withdrawA c _ => c
  | .endA c _ _ => c
  | .cancelA c _ => c
  | .updateFeeA c _ => c
  | .withdrawFeesA c => c

/-- Run one operation as a transaction: a failing operation reverts,
leaving the state unchanged. -/
def applyOp (s : St) : Op → St
  | .createA c n na t sb d => ((createAuction s c n na t sb d).map Prod.fst).getD s
  | .bidA c n id amt => (bid s c n id amt).getD s
  | .withdrawA c id => ((withdraw s c id).map Prod.fst).getD s
  | .endA c n id => (endAuction s c n id).getD s
  | .cancelA c id => (cancelAuction s c id).getD s
  | .updateFeeA c f => (updateServiceFeePercentage s c f).getD s
  | .withdrawFeesA c => ((withdrawServiceFees s c).map Prod.fst).getD s

/-- The state right after deployment: empty ledgers, counter zero, fee
percentage 25 (2.5%), an arbitrary environment. -/
def initSt (owner engine : Nat) (nftOwner0 : Nat → Nat → Nat)
    (approved0 : Nat → Nat → Bool) : St :=
  { pendingReturns := [], auctions := fun _ => dAuction, auctionCounter := 0,
    serviceFeePercentage := 25, owner := owner, balance := 0, engine := engine,
    nftOwner := nftOwner0, engineApproved := approved0,
    deposited := fun _ => 0, paidSeller := fun _ => 0,
    feeAccrued := fun _ => 0, refunded := fun _ => 0 }

/-- States reachable from deployment by any sequence of transactions.
Every transaction has a nonzero caller: on chain msg.sender is never the
zero address. -/
inductive Reachable : St → Prop where
  | init (owner engine : Nat) (nftOwner0 : Nat → Nat → Nat)
      (approved0 : Nat → Nat → Bool) :
      Reachable (initSt owner engine nftOwner0 approved0)
  | step (s : St) (op : Op) (hs : Reachable s) (hc : op.caller ≠ 0) :
      Reachable (applyOp s op)

/-- Conservation of funds for one auction, with all flows accounted:
current pending returns, the highest bid still escrowed while the
auction is live, value paid at settlement to the seller, the service
fee retained for the fee sink, and value refunded to outbid bidders,
together make up everything ever deposited. -/
def conserved (s : St) (auctionId : Nat) : Prop :=
  prSum s.pendingReturns auctionId +
    (if (s.auctions auctionId).ended then 0
     else (s.auctions auctionId).highestBid) +
    s.paidSeller auctionId + s.feeAccrued auctionId + s.refunded auctionId =
    s.deposited auctionId

/-- Inductive invariant of the contract state: the ledger has no
duplicate keys; ids above the counter are untouched; every written
record has a nonzero seller, an existing token contract and a positive
starting bid; the highest bidder is absent exactly when the highest bid
is zero; the fee percentage never exceeds the maximum; and funds are
conserved per auction. -/
def Inv (s : St) : Prop :=
  (prKeys s.pendingReturns).Nodup ∧
  (∀ id, s.auctionCounter < id →
    s.auctions id = dAuction ∧ s.deposited id = 0 ∧
    prSum s.pendingReturns id = 0 ∧ s.refunded id = 0 ∧
    s.paidSeller id = 0 ∧ s.feeAccrued id = 0) ∧
  (∀ id, s.auctions id ≠ dAuction →
    (s.auctions id).seller ≠ 0 ∧ (s.auctions id).nftAddress ≠ 0 ∧
    0 < (s.auctions id).startingBid) ∧
  (∀ id, (s.auctions id).highestBidder = 0 ↔ (s.auctions id).highestBid = 0) ∧
  s.serviceFeePercentage ≤ 1000 ∧
  (∀ id, conserved s id)

theorem inv_initSt (owner engine : Nat) (nftOwner0 : Nat → Nat → Nat)
    (approved0 : Nat → Nat → Bool) :
    Inv (initSt owner engine nftOwner0 approved0) := by
  refine ⟨?_, ?_, ?_, ?_, ?_, ?_⟩ <;>
    simp [initSt, prKeys, dAuction, conserved, prSum]

theorem inv_updateServiceFeePercentage {s : St} (hInv : Inv s)
    {c f : Nat} {s' : St}
    (h : updateServiceFeePercentage s c f = some s') : Inv s' := by
  obtain ⟨hN, hW2, hW3, hW4, hW5, hC⟩ := hInv
  unfold updateServiceFeePercentage at h
  split at h
  · rename_i hg
    obtain ⟨rfl⟩ := h
    exact ⟨hN, hW2, hW3, hW4, by
      simpa [MAX_FEE_PERCENTAGE] using hg.2, hC⟩
  · exact absurd h (by simp)

theorem inv_withdrawServiceFees {s : St} (hInv : Inv s)
    {c : Nat} {s' : St} {amt : Nat}
    (h : withdrawServiceFees s c = some (s', amt)) : Inv s' := by
  obtain ⟨hN, hW2, hW3, hW4, hW5, hC⟩ := hInv
  unfold withdrawServiceFees at h
  split at h
  · obtain ⟨rfl⟩ := (Prod.mk.injEq .. ▸ Option.some.inj h).1
    exact ⟨hN, hW2, hW3, hW4, hW5, hC⟩
  · exact absurd h (by simp)

theorem inv_createAuction {s : St} (hInv : Inv s)
    {c n na t sb d : Nat} (hc : c ≠ 0) {s' : St} {aid : Nat}
    (h : createAuction s c n na t sb d = some (s', aid)) : Inv s' := by
  obtain ⟨hN, hW2, hW3, hW4, hW5, hC⟩ := hInv
  unfold createAuction at h
  split at h
  · rename_i hg
    obtain ⟨hsb, hd, hna, hown, happ⟩ := hg
    obtain ⟨rfl, rfl⟩ := Prod.mk.injEq .. ▸ Option.some.inj h
    refine ⟨hN, ?_, ?_, ?_, hW5, ?_⟩
    · intro id hid
      simp only at hid ⊢
      have hid' : s.auctionCounter < id := by omega
      have hne : id ≠ s.auctionCounter + 1 := by omega
      rw [if_neg hne]
      exact hW2 id hid'
    · intro id
      simp only
      by_cases hid : id = s.auctionCounter + 1
      · rw [if_pos hid]
        exact fun _ => ⟨hc, hna, hsb⟩
      · rw [if_neg hid]
        exact hW3 id
    · intro id
      simp only
      by_cases hid : id = s.auctionCounter + 1
      · rw [if_pos hid]
      · rw [if_neg hid]; exact hW4 id
    · intro id
      have hCo := hC id
      unfold conserved at hCo ⊢
      simp only
      by_cases hid : id = s.auctionCounter + 1
      · subst hid
        obtain ⟨ha, hdep, hpr, hre, hps, hfa⟩ :=
          hW2 (s.auctionCounter + 1) (Nat.lt_succ_self _)
        rw [if_pos rfl]
        simp [hdep, hpr, hre, hps, hfa]
      · rw [if_neg hid]
        exact hCo
  · exact absurd h (by simp)

theorem inv_bid {s : St} (hInv : Inv s) {c n id amt : Nat} (hc : c ≠ 0)
    {s' : St} (h : bid s c n id amt = some s') : Inv s' := by
  obtain ⟨hN, hW2, hW3, hW4, hW5, hC⟩ := hInv
  unfold bid at h
  dsimp only at h
  split at h
  · rename_i hg
    obtain ⟨hend, htime, hsell, hamt⟩ := hg
    have hne : s.auctions id ≠ dAuction := by
      intro hd
      rw [hd] at htime
      simp [dAuction] at htime
    have hle : id ≤ s.auctionCounter := by
      by_contra hgt
      exact hne (hW2 id (by omega)).1
    have hamt0 : 0 < amt := by
      unfold minBidOk at hamt
      by_cases hb0 : (s.auctions id).highestBid = 0
      · rw [if_pos hb0] at hamt
        have := (hW3 id hne).2.2
        omega
      · rw [if_neg hb0] at hamt
        omega
    obtain ⟨rfl⟩ := h
    have hprN : (prKeys (if (s.auctions id).highestBidder ≠ 0 then
        prSet s.pendingReturns (id, (s.auctions id).highestBidder)
          (prGet s.pendingReturns (id, (s.auctions id).highestBidder) +
            (s.auctions id).highestBid)
        else s.pendingReturns)).Nodup := by
      split
      · exact nodup_prKeys_prSet _ _ hN
      · exact hN
    refine ⟨hprN, ?_, ?_, ?_, hW5, ?_⟩
    · intro id' hgt
      simp only at hgt ⊢
      have hne' : id' ≠ id := by omega
      rw [if_neg hne', if_neg hne']
      obtain ⟨ha, hdep, hpr, hre, hps, hfa⟩ := hW2 id' (by omega)
      refine ⟨ha, hdep, ?_, hre, hps, hfa⟩
      split
      · rw [prSum_prSet_ne _ _ _ _ (by simpa using hne'.symm)]
        exact hpr
      · exact hpr
    · intro id'
      simp only
      by_cases hid : id' = id
      · subst hid
        rw [if_pos rfl]
        intro _
        exact ⟨(hW3 id' hne).1, (hW3 id' hne).2.1, (hW3 id' hne).2.2⟩
      · rw [if_neg hid]
        exact hW3 id'
    · intro id'
      simp only
      by_cases hid : id' = id
      · subst hid
        rw [if_pos rfl]
        simp only
        omega
      · rw [if_neg hid]
        exact hW4 id'
    · intro id'
      have hCo := hC id'
      unfold conserved at hCo ⊢
      simp only
      by_cases hid : id' = id
      · subst hid
        rw [if_pos rfl, if_pos rfl]
        simp only [hend, Bool.false_eq_true, if_false] at hCo ⊢
        by_cases hbd : (s.auctions id').highestBidder ≠ 0
        · rw [if_pos hbd]
          have hkey := prSum_prSet_add_prGet hN id'
            (s.auctions id').highestBidder
            (prGet s.pendingReturns (id', (s.auctions id').highestBidder) +
              (s.auctions id').highestBid)
          omega
        · rw [if_neg hbd]
          push_neg at hbd
          have hb0 : (s.auctions id').highestBid = 0 := (hW4 id').mp hbd
          omega
      · rw [if_neg hid, if_neg hid]
        have hpr' : prSum (if (s.auctions id).highestBidder ≠ 0 then
            prSet s.pendingReturns (id, (s.auctions id).highestBidder)
              (prGet s.pendingReturns (id, (s.auctions id).highestBidder) +
                (s.auctions id).highestBid)
            else s.pendingReturns) id' = prSum s.pendingReturns id' := by
          split
          · exact prSum_prSet_ne _ _ _ _ (by simpa using fun hh => hid hh.symm)
          · rfl
        rw [hpr']
        exact hCo
  · exact absurd h (by simp)

theorem inv_withdraw {s : St} (hInv : Inv s) {c id : Nat}
    {s' : St} {amt : Nat} (h : withdraw s c id = some (s', amt)) : Inv s' := by
  obtain ⟨hN, hW2, hW3, hW4, hW5, hC⟩ := hInv
  unfold withdraw withdrawCommit at h
  dsimp only at h
  split at h
  · rename_i hpos
    rw [Option.map_some'] at h
    obtain ⟨rfl, rfl⟩ := Prod.mk.injEq .. ▸ Option.some.inj h
    have hsum : 0 < prSum s.pendingReturns id :=
      lt_of_lt_of_le hpos (prGet_le_prSum hN id c)
    have hle : id ≤ s.auctionCounter := by
      by_contra hgt
      have := (hW2 id (by omega)).2.2.1
      omega
    have hkey := prSum_prSet_add_prGet hN id c 0
    refine ⟨nodup_prKeys_prSet _ _ hN, ?_, hW3, hW4, hW5, ?_⟩
    · intro id' hgt
      simp only at hgt ⊢
      have hne' : id' ≠ id := by omega
      obtain ⟨ha, hdep, hpr, hre, hps, hfa⟩ := hW2 id' (by omega)
      rw [if_neg hne', prSum_prSet_ne _ _ _ _ (by simpa using hne'.symm)]
      exact ⟨ha, hdep, hpr, hre, hps, hfa⟩
    · intro id'
      have hCo := hC id'
      unfold conserved at hCo ⊢
      simp only
      by_cases hid : id' = id
      · subst hid
        rw [if_pos rfl]
        omega
      · rw [if_neg hid, prSum_prSet_ne _ _ _ _ (by simpa using fun hh => hid hh.symm)]
        exact hCo
  · exact absurd h (by simp)

theorem inv_endAuction {s : St} (hInv : Inv s) {c n id : Nat}
    {s' : St} (h : endAuction s c n id = some s') : Inv s' := by
  obtain ⟨hN, hW2, hW3, hW4, hW5, hC⟩ := hInv
  unfold endAuction at h
  dsimp only at h
  split at h
  · rename_i hg
    obtain ⟨hend, htime, hwho, hna⟩ := hg
    have hne : s.auctions id ≠ dAuction := fun hd => hna (by rw [hd]; rfl)
    have hle : id ≤ s.auctionCounter := by
      by_contra hgt
      exact hne (hW2 id (by omega)).1
    split at h
    · rename_i hbd
      obtain ⟨rfl⟩ := h
      have hb0 : (s.auctions id).highestBid ≠ 0 := fun hb => hbd ((hW4 id).mpr hb)
      have hfee : serviceFeeOf (s.auctions id).highestBid s.serviceFeePercentage ≤
          (s.auctions id).highestBid := by
        unfold serviceFeeOf
        calc (s.auctions id).highestBid * s.serviceFeePercentage / 1000 ≤
            (s.auctions id).highestBid * 1000 / 1000 :=
              Nat.div_le_div_right (Nat.mul_le_mul_left _ hW5)
          _ = (s.auctions id).highestBid := Nat.mul_div_cancel _ (by norm_num)
      refine ⟨hN, ?_, ?_, ?_, hW5, ?_⟩
      · intro id' hgt
        simp only at hgt ⊢
        have hne' : id' ≠ id := by omega
        obtain ⟨ha, hdep, hpr, hre, hps, hfa⟩ := hW2 id' (by omega)
        rw [if_neg hne', if_neg hne', if_neg hne']
        exact ⟨ha, hdep, hpr, hre, hps, hfa⟩
      · intro id'
        simp only
        by_cases hid : id' = id
        · subst hid
          rw [if_pos rfl]
          intro _
          exact ⟨(hW3 id' hne).1, (hW3 id' hne).2.1, (hW3 id' hne).2.2⟩
        · rw [if_neg hid]
          exact hW3 id'
      · intro id'
        simp only
        by_cases hid : id' = id
        · subst hid
          rw [if_pos rfl]
          exact hW4 id'
        · rw [if_neg hid]
          exact hW4 id'
      · intro id'
        have hCo := hC id'
        unfold conserved at hCo ⊢
        simp only
        by_cases hid : id' = id
        · subst hid
          simp only [hend, Bool.false_eq_true, if_false] at hCo
          simp
          omega
        · rw [if_neg hid, if_neg hid, if_neg hid]
          exact hCo
    · rename_i hbd
      obtain ⟨rfl⟩ := h
      have hb0 : (s.auctions id).highestBid = 0 := (hW4 id).mp (by omega)
      refine ⟨hN, ?_, ?_, ?_, hW5, ?_⟩
      · intro id' hgt
        simp only at hgt ⊢
        have hne' : id' ≠ id := by omega
        rw [if_neg hne']
        exact hW2 id' (by omega)
      · intro id'
        simp only
        by_cases hid : id' = id
        · subst hid
          rw [if_pos rfl]
          intro _
          exact ⟨(hW3 id' hne).1, (hW3 id' hne).2.1, (hW3 id' hne).2.2⟩
        · rw [if_neg hid]
          exact hW3 id'
      · intro id'
        simp only
        by_cases hid : id' = id
        · subst hid
          rw [if_pos rfl]
          exact hW4 id'
        · rw [if_neg hid]
          exact hW4 id'
      · intro id'
        have hCo := hC id'
        unfold conserved at hCo ⊢
        simp only
        by_cases hid : id' = id
        · subst hid
          simp only [hend, Bool.false_eq_true, if_false] at hCo
          simp
          omega
        · rw [if_neg hid]
          exact hCo
  · exact absurd h (by simp)

theorem inv_cancelAuction {s : St} (hInv : Inv s) {c id : Nat}
    {s' : St} (h : cancelAuction s c id = some s') : Inv s' := by
  obtain ⟨hN, hW2, hW3, hW4, hW5, hC⟩ := hInv
  unfold cancelAuction at h
  dsimp only at h
  split at h
  · rename_i hg
    obtain ⟨hend, hwho, hbd, hna⟩ := hg
    have hne : s.auctions id ≠ dAuction := fun hd => hna (by rw [hd]; rfl)
    have hle : id ≤ s.auctionCounter := by
      by_contra hgt
      exact hne (hW2 id (by omega)).1
    have hb0 : (s.auctions id).highestBid = 0 := (hW4 id).mp hbd
    obtain ⟨rfl⟩ := h
    refine ⟨hN, ?_, ?_, ?_, hW5, ?_⟩
    · intro id' hgt
      simp only at hgt ⊢
      have hne' : id' ≠ id := by omega
      rw [if_neg hne']
      exact hW2 id' (by omega)
    · intro id'
      simp only
      by_cases hid : id' = id
      · subst hid
        rw [if_pos rfl]
        intro _
        exact ⟨(hW3 id' hne).1, (hW3 id' hne).2.1, (hW3 id' hne).2.2⟩
      · rw [if_neg hid]
        exact hW3 id'
    · intro id'
      simp only
      by_cases hid : id' = id
      · subst hid
        rw [if_pos rfl]
        exact hW4 id'
      · rw [if_neg hid]
        exact hW4 id'
    · intro id'
      have hCo := hC id'
      unfold conserved at hCo ⊢
      simp only
      by_cases hid : id' = id
      · subst hid
        simp only [hend, Bool.false_eq_true, if_false] at hCo
        simp
        omega
      · rw [if_neg hid]
        exact hCo
  · exact absurd h (by simp)

theorem inv_applyOp {s : St} (hInv : Inv s) (op : Op)
    (hc : op.caller ≠ 0) : Inv (applyOp s op) := by
  cases op with
  | createA c n na t sb d =>
    simp only [applyOp]
    cases hop : createAuction s c n na t sb d with
    | none => exact hInv
    | some r =>
      obtain ⟨s2, aid⟩ := r
      exact inv_createAuction hInv hc hop
  | bidA c n id amt =>
    simp only [applyOp]
    cases hop : bid s c n id amt with
    | none => exact hInv
    | some r =>
      exact inv_bid hInv hc hop
  | withdrawA c id =>
    simp only [applyOp]
    cases hop : withdraw s c id with
    | none => exact hInv
    | some r =>
      obtain ⟨s2, amt⟩ := r
      exact inv_withdraw hInv hop
  | endA c n id =>
    simp only [applyOp]
    cases hop : endAuction s c n id with
    | none => exact hInv
    | some r =>
      exact inv_endAuction hInv hop
  | cancelA c id =>
    simp only [applyOp]
    cases hop : cancelAuction s c id with
    | none => exact hInv
    | some r =>
      exact inv_cancelAuction hInv hop
  | updateFeeA c f =>
    simp only [applyOp]
    cases hop : updateServiceFeePercentage s c f with
    | none => exact hInv
    | some r =>
      exact inv_updateServiceFeePercentage hInv hop
  | withdrawFeesA c =>
    simp only [applyOp]
    cases hop : withdrawServiceFees s c with
    | none => exact hInv
    | some r =>
      obtain ⟨s2, amt⟩ := r
      exact inv_withdrawServiceFees hInv hop

theorem reachable_inv {s : St} (h : Reachable s) : Inv s := by
  induction h with
  | init o e n0 a0 => exact inv_initSt o e n0 a0
  | step s op hs hc ih => exact inv_applyOp ih op hc

instance (s : St) (auctionId : Nat) : Decidable (conserved s auctionId) := by
  unfold conserved
  infer_instance

/-- Example environment: contract owner 1, contract address 99, account
2 owns the token with id 7 of the NFT contract at address 5, and the
auction contract is approved everywhere. -/
def exNftOwner : Nat → Nat → Nat := fun a t => if a = 5 ∧ t = 7 then 2 else 0

/-- Example approval map: the auction contract may move every token. -/
def exApproved : Nat → Nat → Bool := fun _ _ => true

/-- Example deployment state. -/
def exSt0 : St := initSt 1 99 exNftOwner exApproved

/-- Account 2 creates auction 1 for token (5, 7) with starting bid 1 and
duration 1000 seconds, at time 0. -/
def exSt1 : St := applyOp exSt0 (Op.createA 2 0 5 7 1 1000)

/-- Account 3 bids 10 at time 10. -/
def exSt2 : St := applyOp exSt1 (Op.bidA 3 10 1 10)

/-- Account 4 bids 11 at time 20; account 3 now has 10 in pending
returns. -/
def exSt3 : St := applyOp exSt2 (Op.bidA 4 20 1 11)

/-- Account 3 withdraws its 10 of pending returns. -/
def exSt4 : St := applyOp exSt3 (Op.withdrawA 3 1)

/-- The seller ends auction 1 at time 2000, after the deadline. -/
def exSt5 : St := applyOp exSt4 (Op.endA 2 2000 1)

/-- Alternative trace: account 3 opens with a bid of 101, so the
current highest bid is 101. -/
def exStC2 : St := applyOp exSt1 (Op.bidA 3 10 1 101)

/-- Alternative trace: account 3 opens with a bid of 100. -/
def exStC2b : St := applyOp exSt1 (Op.bidA 3 10 1 100)

/-- Alternative trace: account 3 opens with a bid of 1000, so the
settlement fee at 2.5% is 25. -/
def exStC9 : St := applyOp exSt1 (Op.bidA 3 10 1 1000)

theorem exSt1_reachable : Reachable exSt1 :=
  Reachable.step _ _ (Reachable.init 1 99 exNftOwner exApproved) (by decide)

theorem exSt2_reachable : Reachable exSt2 :=
  Reachable.step _ _ exSt1_reachable (by decide)

theorem exSt3_reachable : Reachable exSt3 :=
  Reachable.step _ _ exSt2_reachable (by decide)

theorem exSt4_reachable : Reachable exSt4 :=
  Reachable.step _ _ exSt3_reachable (by decide)

theorem exSt5_reachable : Reachable exSt5 :=
  Reachable.step _ _ exSt4_reachable (by decide)

theorem exStC2_reachable : Reachable exStC2 :=
  Reachable.step _ _ exSt1_reachable (by decide)

theorem exStC2b_reachable : Reachable exStC2b :=
  Reachable.step _ _ exSt1_reachable (by decide)

theorem exStC9_reachable : Reachable exStC9 :=
  Reachable.step _ _ exSt1_reachable (by decide)

/-- Modelled from the spec: the conservation equation exactly as the
claim states it, with the sum of the pending-returns entries, the
highest bid still escrowed if the auction has not been settled, and the
amounts already paid out to the seller and the fee sink - and no term
for amounts already refunded to outbid bidders through withdraw. -/
def specConserved (s : St) (auctionId : Nat) : Prop :=
  prSum s.pendingReturns auctionId +
    (if (s.auctions auctionId).ended then 0
     else (s.auctions auctionId).highestBid) +
    s.paidSeller auctionId + s.feeAccrued auctionId =
    s.deposited auctionId

instance (s : St) (auctionId : Nat) : Decidable (specConserved s auctionId) := by
  unfold specConserved
  infer_instance

/-- Claim C1 counterexample: on the reachable trace where account 3
bids 10, is outbid by account 4 with 11 and then withdraws its refund,
the claimed equation fails: pending returns sum to 0, the escrowed
highest bid is 11 and nothing was paid to seller or fee sink, yet 21
was deposited in total - the equation omits the 10 refunded through
withdraw. -/
theorem claim_C1_counterexample :
    Reachable exSt4 ∧ ¬ specConserved exSt4 1 :=
  ⟨exSt4_reachable, by decide⟩

/-- Claim C1 (amended): for every reachable state and every auction,
the sum of all pending-returns entries, plus the highest bid still
escrowed if the auction has not been settled, plus the amounts already
paid to the seller and retained for the fee sink, plus the amounts
already refunded to outbid bidders via withdraw, equals the total value
ever deposited into that auction. -/
theorem claim_C1_conservation {s : St} (h : Reachable s) (auctionId : Nat) :
    conserved s auctionId :=
  (reachable_inv h).2.2.2.2.2 auctionId

/-- Witness for claim C1 at the concrete reachable state exSt4. -/
theorem claim_C1_conservation_witness : conserved exSt4 1 :=
  claim_C1_conservation exSt4_reachable 1

/-- Modelled from the spec: the minimum acceptable bid as the claim
states it - the starting bid for a first bid, and otherwise the highest
bid plus the ceiling of five percent of it. -/
def specMinBid (highestBid startingBid : Nat) : Nat :=
  if highestBid = 0 then startingBid
  else highestBid + (highestBid * 5 + 99) / 100

/-- Claim C2 counterexample: with a current highest bid of 101, a bid
of 106 succeeds in the code even though 106 is below the claim's
minimum of 101 + ceil(101 * 5%) = 107: the code computes the increment
with floor division, not ceiling. -/
theorem claim_C2_counterexample :
    Reachable exStC2 ∧ (exStC2.auctions 1).highestBid = 101 ∧
    (exStC2.auctions 1).ended = false ∧ 30 < (exStC2.auctions 1).endTime ∧
    (exStC2.auctions 1).seller ≠ 4 ∧
    (bid exStC2 4 30 1 106).isSome = true ∧
    106 < specMinBid 101 (exStC2.auctions 1).startingBid :=
  ⟨exStC2_reachable, by decide, by decide, by decide, by decide,
   by decide, by decide⟩

/-- Claim C2 (amended): for every auction with all other bid
preconditions met, when the highest bid is positive a bid of amount
succeeds if and only if amount is at least highestBid plus
floor(highestBid * 5 / 100) - a floor, not a ceiling, so with
highestBid = 100 a bid of 104 fails and 105 succeeds - and when the
highest bid is zero it succeeds if and only if amount is at least the
starting bid. -/
theorem claim_C2_min_increment (s : St) (c now auctionId amount : Nat)
    (hend : (s.auctions auctionId).ended = false)
    (htime : now < (s.auctions auctionId).endTime)
    (hsell : (s.auctions auctionId).seller ≠ c) :
    (bid s c now auctionId amount).isSome = true ↔
      (if (s.auctions auctionId).highestBid = 0 then
        (s.auctions auctionId).startingBid ≤ amount
       else (s.auctions auctionId).highestBid +
         (s.auctions auctionId).highestBid * 5 / 100 ≤ amount) := by
  unfold bid
  dsimp only
  split
  · rename_i hg
    simp only [Option.isSome_some, true_iff]
    have hm := hg.2.2.2
    unfold minBidOk at hm
    exact hm
  · rename_i hg
    simp only [Option.isSome_none, Bool.false_eq_true, false_iff]
    intro hrule
    exact hg ⟨hend, htime, hsell, by unfold minBidOk; exact hrule⟩

/-- Witness for claim C2 at a concrete state with highest bid 100: a
bid of 105 succeeds and a bid of 104 does not. -/
theorem claim_C2_min_increment_witness :
    (bid exStC2b 4 20 1 105).isSome = true ∧
    (bid exStC2b 4 20 1 104).isSome ≠ true :=
  ⟨(claim_C2_min_increment exStC2b 4 20 1 105 (by decide) (by decide)
      (by decide)).mpr (by decide),
   fun hsucc => absurd ((claim_C2_min_increment exStC2b 4 20 1 104 (by decide)
      (by decide) (by decide)).mp hsucc) (by decide)⟩

/-- Claim C3 counterexample: the auction of exSt1 has endTime 1000; a
successful bid at time 940 (60 seconds before the deadline) moves the
deadline to 1300 = 1000 + 300, not to 940 + 300 = 1240 as the claim
states: the code adds 300 seconds to the old deadline, not to the bid
time. -/
theorem claim_C3_counterexample :
    Reachable exSt1 ∧ (exSt1.auctions 1).endTime = 1000 ∧
    (bid exSt1 3 940 1 10).isSome = true ∧
    ((applyOp exSt1 (Op.bidA 3 940 1 10)).auctions 1).endTime = 1300 ∧
    (1300 : Nat) ≠ 940 + 300 :=
  ⟨exSt1_reachable, by decide, by decide, by decide, by decide⟩

/-- Claim C3 (amended): a successful bid at a time with fewer than 300
seconds left moves the deadline to the old deadline plus 300 seconds
(so a bid 60 seconds before the deadline T yields T + 300, not
T - 60 + 300), and a successful bid with at least 300 seconds left
leaves the deadline unchanged (a bid at T - 600 does not extend). -/
theorem claim_C3_antisniping (s : St) (c now auctionId amount : Nat)
    {s' : St} (h : bid s c now auctionId amount = some s') :
    ((s.auctions auctionId).endTime - now < 300 →
       (s'.auctions auctionId).endTime = (s.auctions auctionId).endTime + 300) ∧
    (300 ≤ (s.auctions auctionId).endTime - now →
       (s'.auctions auctionId).endTime = (s.auctions auctionId).endTime) := by
  unfold bid at h
  dsimp only at h
  split at h
  · obtain ⟨rfl⟩ := h
    constructor
    · intro hlt
      have he : (if (s.auctions auctionId).endTime - now < 300 then
          (s.auctions auctionId).endTime + 300
          else (s.auctions auctionId).endTime) =
          (s.auctions auctionId).endTime + 300 := if_pos hlt
      simp [he]
    · intro hge
      have he : (if (s.auctions auctionId).endTime - now < 300 then
          (s.auctions auctionId).endTime + 300
          else (s.auctions auctionId).endTime) =
          (s.auctions auctionId).endTime := if_neg (by omega)
      simp [he]
  · exact absurd h (by simp)

/-- Witness for claim C3: on the concrete auction with deadline 1000, a
bid at 940 yields deadline 1300 and a bid at 400 leaves it at 1000. -/
theorem claim_C3_antisniping_witness :
    ((applyOp exSt1 (Op.bidA 3 940 1 10)).auctions 1).endTime =
      (exSt1.auctions 1).endTime + 300 ∧
    ((applyOp exSt1 (Op.bidA 3 400 1 10)).auctions 1).endTime =
      (exSt1.auctions 1).endTime :=
  ⟨(claim_C3_antisniping exSt1 3 940 1 10 rfl).1 (by decide),
   (claim_C3_antisniping exSt1 3 400 1 10 rfl).2 (by decide)⟩

theorem applyOp_createA (s : St) (c n na t sb d : Nat) :
    applyOp s (Op.createA c n na t sb d) =
      ((createAuction s c n na t sb d).map Prod.fst).getD s := rfl

theorem applyOp_bidA (s : St) (c n auctionId amount : Nat) :
    applyOp s (Op.bidA c n auctionId amount) =
      (bid s c n auctionId amount).getD s := rfl

theorem applyOp_withdrawA (s : St) (c auctionId : Nat) :
    applyOp s (Op.withdrawA c auctionId) =
      ((withdraw s c auctionId).map Prod.fst).getD s := rfl

theorem applyOp_endA (s : St) (c n auctionId : Nat) :
    applyOp s (Op.endA c n auctionId) =
      (endAuction s c n auctionId).getD s := rfl

theorem applyOp_cancelA (s : St) (c auctionId : Nat) :
    applyOp s (Op.cancelA c auctionId) =
      (cancelAuction s c auctionId).getD s := rfl

theorem applyOp_updateFeeA (s : St) (c f : Nat) :
    applyOp s (Op.updateFeeA c f) =
      (updateServiceFeePercentage s c f).getD s := rfl

theorem applyOp_withdrawFeesA (s : St) (c : Nat) :
    applyOp s (Op.withdrawFeesA c) =
      ((withdrawServiceFees s c).map Prod.fst).getD s := rfl

/-- Claim C4: terminality and single settlement - in any reachable
state, once an auction's ended flag is true, no operation changes any
field of its record, no bid on it is accepted, and any further
endAuction or cancelAuction call on it fails. -/
theorem claim_C4_ended_terminal {s : St} (h : Reachable s) (auctionId : Nat)
    (he : (s.auctions auctionId).ended = true) :
    (∀ op : Op, op.caller ≠ 0 →
       (applyOp s op).auctions auctionId = s.auctions auctionId) ∧
    (∀ c now amount, bid s c now auctionId amount = none) ∧
    (∀ c now, endAuction s c now auctionId = none) ∧
    (∀ c, cancelAuction s c auctionId = none) := by
  obtain ⟨hN, hW2, hW3, hW4, hW5, hC⟩ := reachable_inv h
  have hle : auctionId ≤ s.auctionCounter := by
    by_contra hgt
    have hd := (hW2 auctionId (by omega)).1
    rw [hd] at he
    simp [dAuction] at he
  have hbid : ∀ c now amount, bid s c now auctionId amount = none := by
    intro c now amount
    unfold bid
    dsimp only
    rw [if_neg (by intro hg; rw [he] at hg; simp at hg)]
  have hend : ∀ c now, endAuction s c now auctionId = none := by
    intro c now
    unfold endAuction
    dsimp only
    rw [if_neg (by intro hg; rw [he] at hg; simp at hg)]
  have hcancel : ∀ c, cancelAuction s c auctionId = none := by
    intro c
    unfold cancelAuction
    dsimp only
    rw [if_neg (by intro hg; rw [he] at hg; simp at hg)]
  refine ⟨?_, hbid, hend, hcancel⟩
  intro op hc
  cases op with
  | createA c n na t sb d =>
    rw [applyOp_createA]
    cases hop : createAuction s c n na t sb d with
    | none => rfl
    | some r =>
      obtain ⟨s2, aid⟩ := r
      unfold createAuction at hop
      split at hop
      · obtain ⟨rfl, rfl⟩ := Prod.mk.injEq .. ▸ Option.some.inj hop
        simp only [Option.map_some', Option.getD_some]
        rw [if_neg (by omega)]
      · simp at hop
  | bidA c n id' amount =>
    rw [applyOp_bidA]
    cases hop : bid s c n id' amount with
    | none => rfl
    | some s2 =>
      by_cases hid : id' = auctionId
      · subst hid
        rw [hbid] at hop
        simp at hop
      · unfold bid at hop
        dsimp only at hop
        split at hop
        · obtain ⟨rfl⟩ := hop
          simp only [Option.getD_some]
          rw [if_neg (fun hh => hid hh.symm)]
        · simp at hop
  | withdrawA c id' =>
    rw [applyOp_withdrawA]
    cases hop : withdraw s c id' with
    | none => rfl
    | some r =>
      obtain ⟨s2, amt⟩ := r
      unfold withdraw withdrawCommit at hop
      dsimp only at hop
      split at hop
      · rw [Option.map_some'] at hop
        obtain ⟨rfl, rfl⟩ := Prod.mk.injEq .. ▸ Option.some.inj hop
        rfl
      · simp at hop
  | endA c n id' =>
    rw [applyOp_endA]
    cases hop : endAuction s c n id' with
    | none => rfl
    | some s2 =>
      by_cases hid : id' = auctionId
      · subst hid
        rw [hend] at hop
        simp at hop
      · unfold endAuction at hop
        dsimp only at hop
        split at hop
        · split at hop
          · obtain ⟨rfl⟩ := hop
            simp only [Option.getD_some]
            rw [if_neg (fun hh => hid hh.symm)]
          · obtain ⟨rfl⟩ := hop
            simp only [Option.getD_some]
            rw [if_neg (fun hh => hid hh.symm)]
        · simp at hop
  | cancelA c id' =>
    rw [applyOp_cancelA]
    cases hop : cancelAuction s c id' with
    | none => rfl
    | some s2 =>
      by_cases hid : id' = auctionId
      · subst hid
        rw [hcancel] at hop
        simp at hop
      · unfold cancelAuction at hop
        dsimp only at hop
        split at hop
        · obtain ⟨rfl⟩ := hop
          simp only [Option.getD_some]
          rw [if_neg (fun hh => hid hh.symm)]
        · simp at hop
  | updateFeeA c f =>
    rw [applyOp_updateFeeA]
    cases hop : updateServiceFeePercentage s c f with
    | none => rfl
    | some s2 =>
      unfold updateServiceFeePercentage at hop
      split at hop
      · obtain ⟨rfl⟩ := hop
        rfl
      · simp at hop
  | withdrawFeesA c =>
    rw [applyOp_withdrawFeesA]
    cases hop : withdrawServiceFees s c with
    | none => rfl
    | some r =>
      obtain ⟨s2, amt⟩ := r
      unfold withdrawServiceFees at hop
      split at hop
      · obtain ⟨rfl, rfl⟩ := Prod.mk.injEq .. ▸ Option.some.inj hop
        rfl
      · simp at hop

/-- Witness for claim C4 at the concrete settled state exSt5, whose
auction 1 is ended: a later bid leaves the record unchanged, and bid,
endAuction and cancelAuction all fail on it. -/
theorem claim_C4_ended_terminal_witness :
    (applyOp exSt5 (Op.bidA 3 3000 1 50)).auctions 1 = exSt5.auctions 1 ∧
    bid exSt5 3 3000 1 50 = none ∧
    endAuction exSt5 2 3000 1 = none ∧
    cancelAuction exSt5 2 1 = none :=
  ⟨(claim_C4_ended_terminal exSt5_reachable 1 (by decide)).1
      (Op.bidA 3 3000 1 50) (by decide),
   (claim_C4_ended_terminal exSt5_reachable 1 (by decide)).2.1 3 3000 50,
   (claim_C4_ended_terminal exSt5_reachable 1 (by decide)).2.2.1 2 3000,
   (claim_C4_ended_terminal exSt5_reachable 1 (by decide)).2.2.2 2⟩

/-- Claim C5: withdraw fails exactly when the caller's pending-returns
balance for the auction is zero (with no condition on whether the
auction has ended); on success the paid amount is exactly that balance
and the ledger entry is zero afterwards; and the entry is zeroed before
the external payment, so that a reentrant withdraw running against the
committed intermediate state sees a zero balance and fails. -/
theorem claim_C5_withdraw (s : St) (c auctionId : Nat) :
    (withdraw s c auctionId = none ↔
       prGet s.pendingReturns (auctionId, c) = 0) ∧
    (∀ s' amount, withdraw s c auctionId = some (s', amount) →
       amount = prGet s.pendingReturns (auctionId, c) ∧
       prGet s'.pendingReturns (auctionId, c) = 0) ∧
    (∀ s₁ amount, withdrawCommit s c auctionId = some (s₁, amount) →
       prGet s₁.pendingReturns (auctionId, c) = 0 ∧
       withdraw s₁ c auctionId = none) := by
  refine ⟨?_, ?_, ?_⟩
  · unfold withdraw withdrawCommit
    dsimp only
    split
    · rename_i hpos
      simp only [Option.map_some']
      constructor
      · intro habs
        simp at habs
      · intro h0
        omega
    · rename_i hpos
      simp only [Option.map_none']
      constructor
      · intro _
        omega
      · intro _
        trivial
  · intro s' amount hsome
    unfold withdraw withdrawCommit at hsome
    dsimp only at hsome
    split at hsome
    · rw [Option.map_some'] at hsome
      obtain ⟨rfl, rfl⟩ := Prod.mk.injEq .. ▸ Option.some.inj hsome
      exact ⟨rfl, prGet_prSet_self _ _ _⟩
    · simp at hsome
  · intro s₁ amount hsome
    unfold withdrawCommit at hsome
    dsimp only at hsome
    split at hsome
    · obtain ⟨rfl, rfl⟩ := Prod.mk.injEq .. ▸ Option.some.inj hsome
      have hz : prGet (prSet s.pendingReturns (auctionId, c) 0) (auctionId, c) = 0 :=
        prGet_prSet_self _ _ _
      refine ⟨hz, ?_⟩
      unfold withdraw withdrawCommit
      dsimp only
      rw [if_neg (by simp only [hz]; omega)]
      rfl
    · simp at hsome

/-- Witness for claim C5: account 5 has no pending returns in exSt3 so
its withdraw fails; and after account 3's entry is zeroed by the commit
step of its withdraw, a reentrant second withdraw by account 3 fails. -/
theorem claim_C5_withdraw_witness :
    withdraw exSt3 5 1 = none ∧
    withdraw { exSt3 with
      pendingReturns := prSet exSt3.pendingReturns (1, 3) 0 } 3 1 = none :=
  ⟨(claim_C5_withdraw exSt3 5 1).1.mpr (by decide),
   ((claim_C5_withdraw exSt3 3 1).2.2
      { exSt3 with pendingReturns := prSet exSt3.pendingReturns (1, 3) 0 }
      (prGet exSt3.pendingReturns (1, 3)) rfl).2⟩

/-- Claim C6: a successful bid implies the auction exists, is not
ended, is not expired and the caller is not the seller; the seller's
own bid always fails; and a failed bid leaves the state unchanged. -/
theorem claim_C6_bid_preconditions {s : St} (h : Reachable s)
    (c now auctionId amount : Nat) :
    ((bid s c now auctionId amount).isSome = true →
       auctionExists s auctionId ∧ (s.auctions auctionId).ended = false ∧
       now < (s.auctions auctionId).endTime ∧
       c ≠ (s.auctions auctionId).seller) ∧
    (c = (s.auctions auctionId).seller → bid s c now auctionId amount = none) ∧
    (bid s c now auctionId amount = none →
       applyOp s (Op.bidA c now auctionId amount) = s) := by
  obtain ⟨hN, hW2, hW3, hW4, hW5, hC⟩ := reachable_inv h
  refine ⟨?_, ?_, ?_⟩
  · intro hsucc
    unfold bid at hsucc
    dsimp only at hsucc
    split at hsucc
    · rename_i hg
      obtain ⟨hend, htime, hsell, _⟩ := hg
      have hne : s.auctions auctionId ≠ dAuction := by
        intro hd
        rw [hd] at htime
        simp [dAuction] at htime
      exact ⟨(hW3 auctionId hne).1, hend, htime, fun hh => hsell hh.symm⟩
    · simp at hsucc
  · intro hcs
    unfold bid
    dsimp only
    rw [if_neg (by intro hg; exact hg.2.2.1 hcs.symm)]
  · intro hnone
    rw [applyOp_bidA, hnone]
    rfl

/-- Witness for claim C6: in exSt2 the seller (account 2) cannot bid on
its own auction, and the failed call leaves the state unchanged. -/
theorem claim_C6_bid_preconditions_witness :
    bid exSt2 2 30 1 50 = none ∧
    applyOp exSt2 (Op.bidA 2 30 1 50) = exSt2 :=
  ⟨(claim_C6_bid_preconditions exSt2_reachable 2 30 1 50).2.1 (by decide),
   (claim_C6_bid_preconditions exSt2_reachable 2 30 1 50).2.2
     ((claim_C6_bid_preconditions exSt2_reachable 2 30 1 50).2.1 (by decide))⟩

/-- Claim C7: for an existing auction in a reachable state, endAuction
succeeds exactly when the auction is not ended and the caller is either
the seller at or past the deadline, or the contract owner (who may
force-end early; the seller may not); on success the auction is marked
ended, and either the highest bidder exists - the seller is paid the
highest bid minus the service fee and the NFT goes to the winner - or
there was no bid and the NFT returns to the seller with no funds
moving; the two branches are mutually exclusive. -/
theorem claim_C7_endAuction {s : St} (h : Reachable s) (c now auctionId : Nat)
    (hex : auctionExists s auctionId) :
    ((endAuction s c now auctionId).isSome = true ↔
       ((s.auctions auctionId).ended = false ∧
        ((c = (s.auctions auctionId).seller ∧
           (s.auctions auctionId).endTime ≤ now) ∨ c = s.owner))) ∧
    (∀ s', endAuction s c now auctionId = some s' →
       (s'.auctions auctionId).ended = true ∧
       ((s.auctions auctionId).highestBidder ≠ 0 →
          s'.paidSeller auctionId = s.paidSeller auctionId +
            ((s.auctions auctionId).highestBid -
              serviceFeeOf (s.auctions auctionId).highestBid
                s.serviceFeePercentage) ∧
          s'.nftOwner (s.auctions auctionId).nftAddress
              (s.auctions auctionId).tokenId =
            (s.auctions auctionId).highestBidder) ∧
       ((s.auctions auctionId).highestBidder = 0 →
          s'.nftOwner (s.auctions auctionId).nftAddress
              (s.auctions auctionId).tokenId = (s.auctions auctionId).seller ∧
          s'.balance = s.balance ∧
          s'.paidSeller auctionId = s.paidSeller auctionId ∧
          s'.pendingReturns = s.pendingReturns)) := by
  obtain ⟨hN, hW2, hW3, hW4, hW5, hC⟩ := reachable_inv h
  have hne : s.auctions auctionId ≠ dAuction := by
    intro hd
    unfold auctionExists at hex
    rw [hd] at hex
    simp [dAuction] at hex
  have hna : (s.auctions auctionId).nftAddress ≠ 0 := (hW3 auctionId hne).2.1
  constructor
  · unfold endAuction
    dsimp only
    split
    · rename_i hg
      obtain ⟨hg1, hg2, hg3, _⟩ := hg
      constructor
      · intro _
        refine ⟨hg1, ?_⟩
        rcases hg2 with h2 | h2
        · rcases hg3 with h3 | h3
          · exact Or.inl ⟨h3, h2⟩
          · exact Or.inr h3
        · exact Or.inr h2
      · intro _
        split <;> rfl
    · rename_i hg
      simp only [Option.isSome_none, Bool.false_eq_true, false_iff]
      intro hrhs
      apply hg
      obtain ⟨h1, h2⟩ := hrhs
      rcases h2 with ⟨h3, h4⟩ | h3
      · exact ⟨h1, Or.inl h4, Or.inl h3, hna⟩
      · exact ⟨h1, Or.inr h3, Or.inr h3, hna⟩
  · intro s' hsome
    unfold endAuction at hsome
    dsimp only at hsome
    split at hsome
    · split at hsome
      · rename_i hbd
        obtain ⟨rfl⟩ := hsome
        refine ⟨by simp, fun _ => ⟨by simp, by simp⟩, fun h0 => absurd h0 hbd⟩
      · rename_i hbd
        obtain ⟨rfl⟩ := hsome
        exact ⟨by simp, fun hb => absurd hb hbd, fun _ => ⟨by simp, rfl, rfl, rfl⟩⟩
    · simp at hsome

/-- Witness for claim C7: the seller ends auction 1 of exSt4 at time
2000 (past the deadline 1000); the call succeeds, the record is marked
ended, and account 4 - the highest bidder - receives the NFT. -/
theorem claim_C7_endAuction_witness :
    (endAuction exSt4 2 2000 1).isSome = true ∧
    ((applyOp exSt4 (Op.endA 2 2000 1)).auctions 1).ended = true ∧
    (applyOp exSt4 (Op.endA 2 2000 1)).nftOwner 5 7 = 4 :=
  ⟨(claim_C7_endAuction exSt4_reachable 2 2000 1 (by decide)).1.mpr
     ⟨by decide, Or.inl ⟨by decide, by decide⟩⟩,
   ((claim_C7_endAuction exSt4_reachable 2 2000 1 (by decide)).2
      (applyOp exSt4 (Op.endA 2 2000 1)) rfl).1,
   (((claim_C7_endAuction exSt4_reachable 2 2000 1 (by decide)).2
      (applyOp exSt4 (Op.endA 2 2000 1)) rfl).2.1 (by decide)).2⟩

/-- Claim C8: for an existing auction in a reachable state,
cancelAuction succeeds exactly when the auction is not ended, the
caller is the seller or the contract owner, and no bid was ever placed;
on success the auction is marked ended and the NFT returns to the
seller; a failed call leaves the state unchanged. -/
theorem claim_C8_cancelAuction {s : St} (h : Reachable s) (c auctionId : Nat)
    (hex : auctionExists s auctionId) :
    ((cancelAuction s c auctionId).isSome = true ↔
       ((s.auctions auctionId).ended = false ∧
        (c = (s.auctions auctionId).seller ∨ c = s.owner) ∧
        (s.auctions auctionId).highestBidder = 0)) ∧
    (∀ s', cancelAuction s c auctionId = some s' →
       (s'.auctions auctionId).ended = true ∧
       s'.nftOwner (s.auctions auctionId).nftAddress
           (s.auctions auctionId).tokenId = (s.auctions auctionId).seller ∧
       s'.pendingReturns = s.pendingReturns ∧ s'.balance = s.balance) ∧
    (cancelAuction s c auctionId = none →
       applyOp s (Op.cancelA c auctionId) = s) := by
  obtain ⟨hN, hW2, hW3, hW4, hW5, hC⟩ := reachable_inv h
  have hne : s.auctions auctionId ≠ dAuction := by
    intro hd
    unfold auctionExists at hex
    rw [hd] at hex
    simp [dAuction] at hex
  have hna : (s.auctions auctionId).nftAddress ≠ 0 := (hW3 auctionId hne).2.1
  refine ⟨?_, ?_, ?_⟩
  · unfold cancelAuction
    dsimp only
    split
    · rename_i hg
      simp only [Option.isSome_some, true_iff]
      exact ⟨hg.1, hg.2.1, hg.2.2.1⟩
    · rename_i hg
      simp only [Option.isSome_none, Bool.false_eq_true, false_iff]
      intro hrhs
      exact hg ⟨hrhs.1, hrhs.2.1, hrhs.2.2, hna⟩
  · intro s' hsome
    unfold cancelAuction at hsome
    dsimp only at hsome
    split at hsome
    · obtain ⟨rfl⟩ := hsome
      exact ⟨by simp, by simp, rfl, rfl⟩
    · simp at hsome
  · intro hnone
    rw [applyOp_cancelA, hnone]
    rfl

/-- Witness for claim C8: the seller cancels the fresh no-bid auction 1
of exSt1; the call succeeds, the record is marked ended and the NFT is
back with the seller; and a repeated cancel on the already ended
auction state fails without changing the state. -/
theorem claim_C8_cancelAuction_witness :
    (cancelAuction exSt1 2 1).isSome = true ∧
    ((applyOp exSt1 (Op.cancelA 2 1)).auctions 1).ended = true ∧
    (applyOp exSt1 (Op.cancelA 2 1)).nftOwner 5 7 = 2 :=
  ⟨(claim_C8_cancelAuction exSt1_reachable 2 1 (by decide)).1.mpr
     ⟨by decide, Or.inl (by decide), by decide⟩,
   ((claim_C8_cancelAuction exSt1_reachable 2 1 (by decide)).2.1
      (applyOp exSt1 (Op.cancelA 2 1)) rfl).1,
   ((claim_C8_cancelAuction exSt1_reachable 2 1 (by decide)).2.1
      (applyOp exSt1 (Op.cancelA 2 1)) rfl).2.1⟩

/-- Claim C9: the settlement fee is the floor of highestBid times the
fee rate over the denominator 1000, so the seller is paid exactly the
highest bid minus that floor (the floor under-charges by less than one
unit of the exact product over 1000); and the administrative fee update
succeeds exactly for new values at most 1000 and leaves the rate
unchanged on failure. -/
theorem claim_C9_fee_policy {s : St} (c now auctionId : Nat) {s' : St}
    (h : endAuction s c now auctionId = some s')
    (hw : (s.auctions auctionId).highestBidder ≠ 0) :
    s'.paidSeller auctionId = s.paidSeller auctionId +
      ((s.auctions auctionId).highestBid -
        serviceFeeOf (s.auctions auctionId).highestBid
          s.serviceFeePercentage) ∧
    s'.feeAccrued auctionId = s.feeAccrued auctionId +
      serviceFeeOf (s.auctions auctionId).highestBid s.serviceFeePercentage ∧
    (∀ hb pct : Nat, 1000 * serviceFeeOf hb pct ≤ hb * pct ∧
       hb * pct < 1000 * (serviceFeeOf hb pct + 1)) ∧
    (∀ c2 v, (updateServiceFeePercentage s c2 v).isSome = true ↔
       (c2 = s.owner ∧ v ≤ 1000)) ∧
    (∀ c2 v s2, updateServiceFeePercentage s c2 v = some s2 →
       s2.serviceFeePercentage = v) ∧
    (∀ c2 v, updateServiceFeePercentage s c2 v = none →
       applyOp s (Op.updateFeeA c2 v) = s) := by
  unfold endAuction at h
  dsimp only at h
  split at h
  · obtain ⟨rfl⟩ := h
    refine ⟨by simp, by simp, ?_, ?_, ?_, ?_⟩
    · intro hb pct
      unfold serviceFeeOf
      have hdm := Nat.div_add_mod (hb * pct) 1000
      have hmlt : hb * pct % 1000 < 1000 := Nat.mod_lt _ (by norm_num)
      omega
    · intro c2 v
      unfold updateServiceFeePercentage MAX_FEE_PERCENTAGE
      split
      · rename_i hg
        simpa using hg
      · rename_i hg
        simpa using hg
    · intro c2 v s2 hup
      unfold updateServiceFeePercentage at hup
      split at hup
      · obtain ⟨rfl⟩ := hup
        rfl
      · simp at hup
    · intro c2 v hup
      rw [applyOp_updateFeeA, hup]
      rfl
  · simp at h

/-- Witness for claim C9: ending the auction of exStC9, whose highest
bid is 1000 at the default 2.5% rate, pays the seller
1000 - floor(1000 * 25 / 1000) = 975 and accrues a fee of 25. -/
theorem claim_C9_fee_policy_witness :
    (applyOp exStC9 (Op.endA 2 2000 1)).paidSeller 1 =
      exStC9.paidSeller 1 + ((exStC9.auctions 1).highestBid -
        serviceFeeOf (exStC9.auctions 1).highestBid
          exStC9.serviceFeePercentage) ∧
    (applyOp exStC9 (Op.endA 2 2000 1)).feeAccrued 1 =
      exStC9.feeAccrued 1 +
        serviceFeeOf (exStC9.auctions 1).highestBid
          exStC9.serviceFeePercentage :=
  ⟨(claim_C9_fee_policy 2 2000 1
      (rfl : endAuction exStC9 2 2000 1 =
        some (applyOp exStC9 (Op.endA 2 2000 1))) (by decide)).1,
   (claim_C9_fee_policy 2 2000 1
      (rfl : endAuction exStC9 2 2000 1 =
        some (applyOp exStC9 (Op.endA 2 2000 1))) (by decide)).2.1⟩

/-- Claim C10: withdrawServiceFees succeeds exactly when called by the
contract owner with a positive contract balance; it pays out the entire
held balance (including value still owed to outbid bidders or escrowed
for live auctions) and changes nothing else: every auction record,
every pending-returns entry and all the accounting fields are
untouched. -/
theorem claim_C10_withdrawServiceFees (s : St) (c : Nat) :
    ((withdrawServiceFees s c).isSome = true ↔
       (c = s.owner ∧ 0 < s.balance)) ∧
    (∀ s' amount, withdrawServiceFees s c = some (s', amount) →
       amount = s.balance ∧ s'.balance = 0 ∧
       s'.auctions = s.auctions ∧ s'.pendingReturns = s.pendingReturns ∧
       s'.auctionCounter = s.auctionCounter ∧
       s'.serviceFeePercentage = s.serviceFeePercentage ∧
       s'.deposited = s.deposited ∧ s'.paidSeller = s.paidSeller ∧
       s'.feeAccrued = s.feeAccrued ∧ s'.refunded = s.refunded ∧
       s'.owner = s.owner ∧ s'.nftOwner = s.nftOwner) := by
  constructor
  · unfold withdrawServiceFees
    split
    · rename_i hg
      simpa using hg
    · rename_i hg
      simpa using hg
  · intro s' amount hsome
    unfold withdrawServiceFees at hsome
    split at hsome
    · obtain ⟨rfl, rfl⟩ := Prod.mk.injEq .. ▸ Option.some.inj hsome
      exact ⟨rfl, rfl, rfl, rfl, rfl, rfl, rfl, rfl, rfl, rfl, rfl, rfl⟩
    · simp at hsome

/-- Witness for claim C10 at exSt3, where the contract holds 21 wei of
which 10 is owed to account 3 and 11 escrows the live highest bid: the
owner's sweep succeeds, takes the full 21, and leaves the auction
record and the pending-returns ledger unchanged. -/
theorem claim_C10_withdrawServiceFees_witness :
    (withdrawServiceFees exSt3 1).isSome = true ∧
    (applyOp exSt3 (Op.withdrawFeesA 1)).pendingReturns =
      exSt3.pendingReturns ∧
    (applyOp exSt3 (Op.withdrawFeesA 1)).auctions = exSt3.auctions ∧
    prGet exSt3.pendingReturns (1, 3) = 10 ∧
    (exSt3.auctions 1).ended = false ∧ exSt3.balance = 21 :=
  ⟨(claim_C10_withdrawServiceFees exSt3 1).1.mpr ⟨by decide, by decide⟩,
   ((claim_C10_withdrawServiceFees exSt3 1).2
      (applyOp exSt3 (Op.withdrawFeesA 1)) exSt3.balance rfl).2.2.2.1,
   ((claim_C10_withdrawServiceFees exSt3 1).2
      (applyOp exSt3 (Op.withdrawFeesA 1)) exSt3.balance rfl).2.2.1,
   by decide, by decide, by decide⟩

end NFTAuctionModel
